import Mathlib

/-!
Verification of the 2D spatial hash grid in adm87/utilities.

The repository contains several variants of the same structure:
* `src/hash/grid.go` — generation-stamp deduplication with a reverse index
  (`items`, `itemCells`), modelled below in namespace `Hash`;
* `src/hashgrid/grid.go` — padding flags, seen-set deduplication with an AABB
  recheck, truncation-based cell ranges, modelled in namespace `Hashgrid`;
* the unnamed parts are further variants of the same two files.

Modelling conventions:
* `float32` coordinates are modelled as exact rationals (`ℚ`); the claims under
  test concern the floor/ceil/truncation and half-open/inclusive range logic,
  which is exact on the values involved (float rounding is out of scope);
* Go maps are modelled as functions into `Option` (`none` = key absent);
  `m[k]` on an absent key yields the zero value, modelled by `Option.getD`;
* `int32`/`uint32`/`uint64` conversions are modelled on `ℤ`/`ℕ` with explicit
  `% 4294967296` wrapping where the source performs a wrapping conversion;
* the `uint64` generation counter is modelled as `ℕ` (its wrap-around needs
  2^64 queries on one grid instance and is unreachable in the source's terms).
-/

set_option allowUnsafeReducibility true
attribute [local semireducible] Rat.mul Rat.add Rat.inv Rat.div Rat.sub Rat.neg

/-- An axis-aligned bounding box `(minX, minY, maxX, maxY)` as passed to the
grid operations in the source. -/
structure Rect where
  minX : ℚ
  minY : ℚ
  maxX : ℚ
  maxY : ℚ

/-- Pointwise map update, modelling a Go map write `m[a] = v`
(or `delete(m, a)` when `v = none`). -/
def upd {α β : Type} [DecidableEq α] (f : α → Option β) (a : α) (v : Option β) : α → Option β :=
  fun x => if x = a then v else f x

theorem upd_same {α β : Type} [DecidableEq α] (f : α → Option β) (a : α) (v : Option β) :
    upd f a v a = v := by
  simp [upd]

theorem upd_ne {α β : Type} [DecidableEq α] (f : α → Option β) (a : α) (v : Option β)
    (x : α) (h : x ≠ a) : upd f a v x = f x := by
  simp [upd, h]

/-- The half-open integer interval `[lo, hi)` as the list `lo, lo+1, ..., hi-1`,
modelling the Go loop `for i := lo; i < hi; i++`. -/
def intRange (lo hi : ℤ) : List ℤ :=
  (List.range (hi - lo).toNat).map (fun i : ℕ => lo + (i : ℤ))

theorem mem_intRange {lo hi x : ℤ} : x ∈ intRange lo hi ↔ lo ≤ x ∧ x < hi := by
  unfold intRange
  rw [List.mem_map]
  constructor
  · rintro ⟨i, hi', rfl⟩
    rw [List.mem_range] at hi'
    omega
  · intro h
    refine ⟨(x - lo).toNat, ?_, ?_⟩
    · rw [List.mem_range]
      omega
    · omega

namespace Hash

/-- Reinterpretation of a non-negative 32-bit pattern (or any integer) as a
signed `int32`, modelling Go's wrapping conversion `int32(...)`. -/
def toInt32 (n : ℤ) : ℤ := (n + 2147483648) % 4294967296 - 2147483648

/-- `EncodeGridKey` from `src/hash/grid.go`: bias each coordinate by
`offset = 1 << 31 = 2147483648`, take the low 32 bits (`uint32(...)`, i.e.
`% 4294967296`), and pack `x` into the high and `y` into the low 32 bits of a
`uint64`. -/
def EncodeGridKey (x y : ℤ) : ℕ :=
  (((x + 2147483648) % 4294967296) * 4294967296 + (y + 2147483648) % 4294967296).toNat

/-- `DecodeGridKey` from `src/hash/grid.go`: `upper := int32(uint32(key >> 32))`,
`lower := int32(uint32(key & 0xFFFFFFFF))`, then `x = int32(int64(upper) - offset)`
and `y = int32(int64(lower) - offset)`. -/
def DecodeGridKey (key : ℕ) : ℤ × ℤ :=
  let upper := toInt32 ((key : ℤ) / 4294967296 % 4294967296)
  let lower := toInt32 ((key : ℤ) % 4294967296)
  (toInt32 (upper - 2147483648), toInt32 (lower - 2147483648))

theorem roundtripKeyCodec (x y : ℤ) (hx1 : -2147483648 ≤ x) (hx2 : x < 2147483648)
    (hy1 : -2147483648 ≤ y) (hy2 : y < 2147483648) :
    DecodeGridKey (EncodeGridKey x y) = (x, y) := by
  have hnn : (0:ℤ) ≤ ((x + 2147483648) % 4294967296) * 4294967296 +
      (y + 2147483648) % 4294967296 := by
    have h1 : (0:ℤ) ≤ (x + 2147483648) % 4294967296 :=
      Int.emod_nonneg _ (by norm_num)
    have h2 : (0:ℤ) ≤ (y + 2147483648) % 4294967296 :=
      Int.emod_nonneg _ (by norm_num)
    nlinarith
  unfold DecodeGridKey EncodeGridKey toInt32
  rw [Int.toNat_of_nonneg hnn]
  simp only [Prod.mk.injEq]
  constructor <;> omega

/-- The two values of `GridItemPadding` in `src/hash/grid.go`
(`NoGridPadding = 0`, `GridCellPadding = 1`). -/
inductive GridItemPadding where
  | noGridPadding
  | gridCellPadding
deriving DecidableEq

/-- The state of `hash.Grid[T]` from `src/hash/grid.go`.

`cells` is the bucket store (`map[uint64][]T`), `items` the per-item generation
stamp map (`map[T]uint64`, also the presence set used by `Contains`),
`itemCells` the reverse index (`map[T][]uint64`), `qBuf` the reused query
result buffer. Maps are functions into `Option`; `none` means the key is
absent. -/
structure Grid (T : Type) where
  gen : ℕ
  cellWidth : ℚ
  cellHeight : ℚ
  cells : ℕ → Option (List T)
  items : T → Option ℕ
  itemCells : T → Option (List ℕ)
  qBuf : List T

variable {T : Type} [DecidableEq T]

/-- `NewGrid` from `src/hash/grid.go`. Note that, unlike the `hashgrid`
constructors, it performs no validation of the cell size. -/
def NewGrid (cellWidth cellHeight : ℚ) : Grid T :=
  { gen := 0, cellWidth := cellWidth, cellHeight := cellHeight,
    cells := fun _ => none, items := fun _ => none,
    itemCells := fun _ => none, qBuf := [] }

/-- The four values returned by `(*Grid).cellRange`. -/
structure CellRange where
  minCellX : ℤ
  minCellY : ℤ
  maxCellX : ℤ
  maxCellY : ℤ

/-- `cellRange` from `src/hash/grid.go` (and, identically, `computeCellRange`
from the `hashgrid` variant in `src/unnamed/part_000`):
floor of the min corner and ceil of the max corner, divided by the cell size. -/
def cellRange (cellWidth cellHeight : ℚ) (r : Rect) : CellRange :=
  { minCellX := ⌊r.minX / cellWidth⌋
    minCellY := ⌊r.minY / cellHeight⌋
    maxCellX := ⌈r.maxX / cellWidth⌉
    maxCellY := ⌈r.maxY / cellHeight⌉ }

/-- The one-cell range expansion `insert` applies when
`padding == GridCellPadding`. -/
def padRange (cr : CellRange) (p : GridItemPadding) : CellRange :=
  match p with
  | .noGridPadding => cr
  | .gridCellPadding =>
    { minCellX := cr.minCellX - 1, minCellY := cr.minCellY - 1,
      maxCellX := cr.maxCellX + 1, maxCellY := cr.maxCellY + 1 }

/-- The `(cx, cy)` pairs visited by the nested loops
`for cy := minCellY; cy < maxCellY; cy++ { for cx := minCellX; cx < maxCellX; cx++`
(outer `cy`, inner `cx`, both half-open). -/
def rangeCells (cr : CellRange) : List (ℤ × ℤ) :=
  (intRange cr.minCellY cr.maxCellY).flatMap
    (fun cy => (intRange cr.minCellX cr.maxCellX).map (fun cx => (cx, cy)))

/-- The cell coordinates covered by an AABB: `cellRange` followed by the
half-open double loop. Used by both `insert` and `Query`. -/
def coveredCells (cellWidth cellHeight : ℚ) (r : Rect) : List (ℤ × ℤ) :=
  rangeCells (cellRange cellWidth cellHeight r)

/-- The cell keys `insert` appends the item to: every cell of the (possibly
padded) range whose world-space bounds the optional `GridInsertionFunc`
accepts (`fn == nil` accepts every cell). -/
def acceptedCellKeys (cellWidth cellHeight : ℚ) (cr : CellRange)
    (fn : Option (ℚ → ℚ → ℚ → ℚ → Bool)) : List ℕ :=
  (rangeCells cr).filterMap (fun p =>
    let ok : Bool := match fn with
      | none => true
      | some f => f ((p.1 : ℚ) * cellWidth) ((p.2 : ℚ) * cellHeight)
          ((p.1 : ℚ) * cellWidth + cellWidth) ((p.2 : ℚ) * cellHeight + cellHeight)
    if ok then some (EncodeGridKey p.1 p.2) else none)

/-- The bucket stored for key `k` (`g.cells[key]`; `nil` when absent). -/
def bucket (g : Grid T) (k : ℕ) : List T := (g.cells k).getD []

/-- The effect on the bucket store of the appends
`g.cells[key] = append(g.cells[key], item)` performed for each key of `ks`
in order. -/
def appendAll (cs : ℕ → Option (List T)) (item : T) (ks : List ℕ) :
    ℕ → Option (List T) :=
  ks.foldl (fun cs k => upd cs k (some ((cs k).getD [] ++ [item]))) cs

/-- `Contains` from `src/hash/grid.go`: presence in the `items` map. -/
def Contains (g : Grid T) (item : T) : Bool := (g.items item).isSome

/-- The cell-key list built by `insert`'s double loop for a given box,
padding and predicate on a given grid. -/
def insKeys (g : Grid T) (r : Rect) (padding : GridItemPadding)
    (fn : Option (ℚ → ℚ → ℚ → ℚ → Bool)) : List ℕ :=
  acceptedCellKeys g.cellWidth g.cellHeight
    (padRange (cellRange g.cellWidth g.cellHeight r) padding) fn

/-- The unexported `insert` from `src/hash/grid.go`: reject if already present,
otherwise append the item to the bucket of every accepted cell key, stamp
`items[item] = 0` and record the key list in the reverse index. Returns the
`bool` result together with the updated grid. -/
def insert (g : Grid T) (item : T) (r : Rect) (padding : GridItemPadding)
    (fn : Option (ℚ → ℚ → ℚ → ℚ → Bool)) : Bool × Grid T :=
  if (g.items item).isSome then (false, g)
  else
    let ks := insKeys g r padding fn
    (true,
      { g with
        cells := appendAll g.cells item ks
        items := upd g.items item (some 0)
        itemCells := upd g.itemCells item (some ks) })

/-- `Insert` from `src/hash/grid.go`: `insert` with a nil `GridInsertionFunc`. -/
def Insert (g : Grid T) (item : T) (r : Rect) (padding : GridItemPadding) :
    Bool × Grid T :=
  insert g item r padding none

/-- `InsertFunc` from `src/hash/grid.go`. -/
def InsertFunc (g : Grid T) (item : T) (r : Rect) (padding : GridItemPadding)
    (fn : ℚ → ℚ → ℚ → ℚ → Bool) : Bool × Grid T :=
  insert g item r padding (some fn)

/-- One bucket compaction step of `Remove`: keep the elements different from
`item` (in order) and delete the bucket when it becomes empty. -/
def remOnce (item : T) (o : Option (List T)) : Option (List T) :=
  let compacted := (o.getD []).filter (fun it => it ≠ item)
  if compacted = [] then none else some compacted

/-- The effect on the bucket store of `Remove`'s loop over the recorded cell
keys. -/
def removeAll (cs : ℕ → Option (List T)) (item : T) (ks : List ℕ) :
    ℕ → Option (List T) :=
  ks.foldl (fun cs k => upd cs k (remOnce item (cs k))) cs

/-- `Remove` from `src/hash/grid.go`: no-op when absent; otherwise delete the
item from `items`/`itemCells` and compact it out of the bucket of every
recorded cell key, deleting buckets that become empty. -/
def Remove (g : Grid T) (item : T) : Grid T :=
  if (g.items item).isSome then
    let ks := (g.itemCells item).getD []
    { g with
      cells := removeAll g.cells item ks
      items := upd g.items item none
      itemCells := upd g.itemCells item none }
  else g

/-- One item step of `Query`'s bucket scan: emit the item and stamp it with
the current generation unless its stamp (`g.items[item]`, zero when absent)
already equals the current generation. -/
def queryStep (gen' : ℕ) (st : (T → Option ℕ) × List T) (item : T) :
    (T → Option ℕ) × List T :=
  if (st.1 item).getD 0 ≠ gen' then (upd st.1 item (some gen'), st.2 ++ [item])
  else st

/-- One cell step of `Query`: skip absent buckets, scan present ones. -/
def queryCell (g : Grid T) (gen' : ℕ) (st : (T → Option ℕ) × List T) (k : ℕ) :
    (T → Option ℕ) × List T :=
  match g.cells k with
  | none => st
  | some l => l.foldl (queryStep gen') st

/-- `Query` from `src/hash/grid.go` (and, identically, the `Query` of the
variant in `src/unnamed/part_002`): reset the reused buffer, bump the
generation counter, and scan the buckets of every covered cell, deduplicating
with the generation stamps. The returned slice is the grid's `qBuf`. -/
def Query (g : Grid T) (r : Rect) : Grid T :=
  let gen' := g.gen + 1
  let ks := (coveredCells g.cellWidth g.cellHeight r).map
    (fun p => EncodeGridKey p.1 p.2)
  let res := ks.foldl (queryCell g gen') (g.items, [])
  { g with gen := gen', items := res.1, qBuf := res.2 }

/-- `Clear` from `src/hash/grid.go`: empty all three maps and reset the
generation counter. (Go's `clear(g.qBuf)` zeroes the buffer's elements in
place; the buffer's contents are only ever observed after `Query` first
truncates it to length zero, so it is modelled as emptied.) -/
def Clear (g : Grid T) : Grid T :=
  { g with
    cells := fun _ => none
    items := fun _ => none
    itemCells := fun _ => none
    qBuf := []
    gen := 0 }

/-- `Resize` from `src/hash/grid.go`: no-op when both dimensions are unchanged,
otherwise `Clear` and adopt the new size. No validation of the new size is
performed. -/
def Resize (g : Grid T) (cellWidth cellHeight : ℚ) : Grid T :=
  if g.cellWidth = cellWidth ∧ g.cellHeight = cellHeight then g
  else { Clear g with cellWidth := cellWidth, cellHeight := cellHeight }

theorem appendAll_apply (item : T) (ks : List ℕ) (cs : ℕ → Option (List T)) (k : ℕ) :
    appendAll cs item ks k =
      if ks.count k = 0 then cs k
      else some ((cs k).getD [] ++ List.replicate (ks.count k) item) := by
  induction ks generalizing cs with
  | nil => simp [appendAll]
  | cons k0 rest ih =>
    have hstep : appendAll cs item (k0 :: rest) =
        appendAll (upd cs k0 (some ((cs k0).getD [] ++ [item]))) item rest := rfl
    rw [hstep, ih]
    by_cases hk : k = k0
    · subst hk
      rw [upd_same]
      simp only [List.count_cons, beq_self_eq_true, if_pos, Option.getD_some]
      rcases Nat.eq_zero_or_pos (rest.count k) with hc | hc
      · simp [hc]
      · have h1 : ¬ rest.count k = 0 := by omega
        have h2 : ¬ rest.count k + 1 = 0 := by omega
        rw [if_neg h1, if_neg h2]
        have : (cs k).getD [] ++ [item] ++ List.replicate (rest.count k) item =
            (cs k).getD [] ++ List.replicate (rest.count k + 1) item := by
          rw [List.append_assoc, List.singleton_append, ← List.replicate_succ]
        rw [this]
    · rw [upd_ne _ _ _ _ hk]
      have : (k0 :: rest).count k = rest.count k := by
        simp [List.count_cons, hk]
      rw [this]

theorem appendAll_count (item e : T) (ks : List ℕ) (cs : ℕ → Option (List T)) (k : ℕ) :
    ((appendAll cs item ks k).getD []).count e =
      ((cs k).getD []).count e + if e = item then ks.count k else 0 := by
  rw [appendAll_apply]
  rcases Nat.eq_zero_or_pos (ks.count k) with hc | hc
  · simp [hc]
  · rw [if_neg (by omega)]
    simp only [Option.getD_some, List.count_append, List.count_replicate]
    by_cases he : e = item
    · simp [he]
    · simp [he, Ne.symm he]

theorem appendAll_untouched (item : T) (ks : List ℕ) (cs : ℕ → Option (List T)) (k : ℕ)
    (h : k ∉ ks) : appendAll cs item ks k = cs k := by
  rw [appendAll_apply, if_pos]
  exact List.count_eq_zero.2 h

theorem appendAll_ne_nil (item : T) (ks : List ℕ) (cs : ℕ → Option (List T)) (k : ℕ)
    (l : List T) (hold : ∀ l0, cs k = some l0 → l0 ≠ [])
    (h : appendAll cs item ks k = some l) : l ≠ [] := by
  rw [appendAll_apply] at h
  rcases Nat.eq_zero_or_pos (ks.count k) with hc | hc
  · rw [if_pos hc] at h
    exact hold l h
  · rw [if_neg (by omega)] at h
    have hl := h.symm
    rw [Option.some.injEq] at h
    intro hnil
    rw [← h] at hnil
    have : (List.replicate (ks.count k) item).length = 0 := by
      have := congrArg List.length hnil
      simp at this
      omega
    simp at this
    omega

theorem appendAll_mem (item e : T) (ks : List ℕ) (cs : ℕ → Option (List T)) (k : ℕ)
    (l : List T) (h : appendAll cs item ks k = some l) (he : e ∈ l) :
    (∃ l0, cs k = some l0 ∧ e ∈ l0) ∨ e = item := by
  rw [appendAll_apply] at h
  rcases Nat.eq_zero_or_pos (ks.count k) with hc | hc
  · rw [if_pos hc] at h
    exact Or.inl ⟨l, h, he⟩
  · rw [if_neg (by omega), Option.some.injEq] at h
    rw [← h, List.mem_append] at he
    rcases he with he | he
    · rcases ho : cs k with _ | l0
      · rw [ho] at he
        simp at he
      · rw [ho] at he
        exact Or.inl ⟨l0, rfl, he⟩
    · exact Or.inr (List.eq_of_mem_replicate he)

theorem remOnce_idem (item : T) (o : Option (List T)) :
    remOnce item (remOnce item o) = remOnce item o := by
  unfold remOnce
  by_cases h : (o.getD []).filter (fun it => it ≠ item) = []
  · rw [if_pos h]
    simp
  · rw [if_neg h]
    simp only [Option.getD_some]
    have hidem : ((o.getD []).filter (fun it => it ≠ item)).filter (fun it => it ≠ item) =
        (o.getD []).filter (fun it => it ≠ item) :=
      List.filter_eq_self.2 (fun a ha => (List.mem_filter.1 ha).2)
    rw [hidem, if_neg h]

theorem removeAll_apply (item : T) (ks : List ℕ) (cs : ℕ → Option (List T)) (k : ℕ) :
    removeAll cs item ks k = if k ∈ ks then remOnce item (cs k) else cs k := by
  induction ks generalizing cs with
  | nil => simp [removeAll]
  | cons k0 rest ih =>
    have hstep : removeAll cs item (k0 :: rest) =
        removeAll (upd cs k0 (remOnce item (cs k0))) item rest := rfl
    rw [hstep, ih]
    by_cases hk : k = k0
    · subst hk
      rw [upd_same]
      by_cases hmem : k ∈ rest
      · simp [hmem, remOnce_idem]
      · simp [hmem]
    · rw [upd_ne _ _ _ _ hk]
      simp [List.mem_cons, hk]

/-- Well-formedness of a `hash.Grid` state (established below for every
reachable state): the multiplicity of an indexed entry in each bucket equals
the multiplicity of the bucket's key in the entry's recorded key list,
`items` and `itemCells` have the same domain, no stored bucket is empty,
bucket members are indexed, and every generation stamp is at most the
generation counter. -/
structure WF (g : Grid T) : Prop where
  count_eq : ∀ e K, g.itemCells e = some K → ∀ k, (bucket g k).count e = K.count k
  idx_agree : ∀ e, g.items e = none ↔ g.itemCells e = none
  buckets_ne_nil : ∀ k l, g.cells k = some l → l ≠ []
  mem_idx : ∀ k l e, g.cells k = some l → e ∈ l → g.itemCells e ≠ none
  gen_bound : ∀ e s, g.items e = some s → s ≤ g.gen

theorem count_bucket_zero (g : Grid T) (h : WF g) (item : T)
    (hnone : g.itemCells item = none) (k : ℕ) : (bucket g k).count item = 0 := by
  unfold bucket
  rcases hck : g.cells k with _ | l
  · rfl
  · exact List.count_eq_zero.2 (fun hm => (h.mem_idx k l item hck hm) hnone)

theorem wf_new (cellWidth cellHeight : ℚ) : WF (NewGrid (T := T) cellWidth cellHeight) := by
  constructor <;> intro e <;> simp [NewGrid, bucket]

theorem insert_present (g : Grid T) (item : T) (r : Rect) (p : GridItemPadding)
    (fn : Option (ℚ → ℚ → ℚ → ℚ → Bool)) (hin : g.items item ≠ none) :
    insert g item r p fn = (false, g) := by
  unfold insert
  rw [if_pos (Option.isSome_iff_ne_none.2 hin)]

theorem insert_absent (g : Grid T) (item : T) (r : Rect) (p : GridItemPadding)
    (fn : Option (ℚ → ℚ → ℚ → ℚ → Bool)) (hin : g.items item = none) :
    insert g item r p fn =
      (true,
        { g with
          cells := appendAll g.cells item (insKeys g r p fn)
          items := upd g.items item (some 0)
          itemCells := upd g.itemCells item (some (insKeys g r p fn)) }) := by
  unfold insert
  rw [if_neg (by simp [hin])]

theorem wf_insert_aux (g : Grid T) (item : T) (ks : List ℕ) (h : WF g)
    (hin : g.items item = none) :
    WF { g with
      cells := appendAll g.cells item ks
      items := upd g.items item (some 0)
      itemCells := upd g.itemCells item (some ks) } := by
  have hicn : g.itemCells item = none := (h.idx_agree item).1 hin
  have hzero : ∀ k, (bucket g k).count item = 0 := count_bucket_zero g h item hicn
  constructor
  · intro e K hK k
    have hK2 : upd g.itemCells item (some ks) e = some K := hK
    show ((appendAll g.cells item ks k).getD []).count e = K.count k
    rw [appendAll_count]
    by_cases he : e = item
    · subst he
      rw [upd_same, Option.some.injEq] at hK2
      subst hK2
      rw [if_pos rfl]
      have hz := hzero k
      unfold bucket at hz
      omega
    · rw [upd_ne _ _ _ _ he] at hK2
      rw [if_neg he]
      have hc := h.count_eq e K hK2 k
      unfold bucket at hc
      omega
  · intro e
    show upd g.items item (some 0) e = none ↔ upd g.itemCells item (some ks) e = none
    by_cases he : e = item
    · subst he
      rw [upd_same, upd_same]
      simp
    · rw [upd_ne _ _ _ _ he, upd_ne _ _ _ _ he]
      exact h.idx_agree e
  · intro k l hck
    have hck2 : appendAll g.cells item ks k = some l := hck
    exact appendAll_ne_nil item ks g.cells k l (fun l0 h0 => h.buckets_ne_nil k l0 h0) hck2
  · intro k l e hck hmem
    have hck2 : appendAll g.cells item ks k = some l := hck
    show upd g.itemCells item (some ks) e ≠ none
    rcases appendAll_mem item e ks g.cells k l hck2 hmem with ⟨l0, h0, hm0⟩ | he
    · by_cases he : e = item
      · subst he
        rw [upd_same]
        simp
      · rw [upd_ne _ _ _ _ he]
        exact h.mem_idx k l0 e h0 hm0
    · subst he
      rw [upd_same]
      simp
  · intro e s' hs
    have hs2 : upd g.items item (some 0) e = some s' := hs
    show s' ≤ g.gen
    by_cases he : e = item
    · subst he
      rw [upd_same, Option.some.injEq] at hs2
      omega
    · rw [upd_ne _ _ _ _ he] at hs2
      exact h.gen_bound e s' hs2

theorem wf_insert (g : Grid T) (item : T) (r : Rect) (p : GridItemPadding)
    (fn : Option (ℚ → ℚ → ℚ → ℚ → Bool)) (h : WF g) :
    WF (insert g item r p fn).2 := by
  rcases hin : g.items item with _ | s
  · rw [insert_absent g item r p fn hin]
    exact wf_insert_aux g item (insKeys g r p fn) h hin
  · rw [insert_present g item r p fn (by simp [hin])]
    exact h

theorem remove_absent (g : Grid T) (item : T) (hin : g.items item = none) :
    Remove g item = g := by
  unfold Remove
  rw [if_neg (by simp [hin])]

theorem remove_present (g : Grid T) (item : T) (hin : g.items item ≠ none) :
    Remove g item =
      { g with
        cells := removeAll g.cells item ((g.itemCells item).getD [])
        items := upd g.items item none
        itemCells := upd g.itemCells item none } := by
  unfold Remove
  rw [if_pos (Option.isSome_iff_ne_none.2 hin)]

theorem count_remOnce_ne (item e : T) (o : Option (List T)) (he : e ≠ item) :
    ((remOnce item o).getD []).count e = (o.getD []).count e := by
  unfold remOnce
  by_cases hf : (o.getD []).filter (fun it => it ≠ item) = []
  · rw [if_pos hf]
    have hz : ((o.getD []).filter (fun it => it ≠ item)).count e = 0 := by
      rw [hf]
      rfl
    rw [List.count_filter (by simp [he])] at hz
    simp [hz]
  · rw [if_neg hf]
    simp only [Option.getD_some]
    rw [List.count_filter (by simp [he])]

theorem count_remOnce_self (item : T) (o : Option (List T)) :
    ((remOnce item o).getD []).count item = 0 := by
  unfold remOnce
  by_cases hf : (o.getD []).filter (fun it => it ≠ item) = []
  · rw [if_pos hf]
    rfl
  · rw [if_neg hf]
    simp only [Option.getD_some]
    rw [List.count_eq_zero]
    intro hm
    have hp := (List.mem_filter.1 hm).2
    simp at hp

theorem wf_remove_aux (g : Grid T) (item : T) (K : List ℕ) (h : WF g)
    (hic : g.itemCells item = some K) :
    WF { g with
      cells := removeAll g.cells item K
      items := upd g.items item none
      itemCells := upd g.itemCells item none } := by
  constructor
  · intro e K' hK' k
    have hK2 : upd g.itemCells item none e = some K' := hK'
    show ((removeAll g.cells item K k).getD []).count e = K'.count k
    by_cases he : e = item
    · subst he
      rw [upd_same] at hK2
      exact absurd hK2 (by simp)
    · rw [upd_ne _ _ _ _ he] at hK2
      rw [removeAll_apply]
      have hc := h.count_eq e K' hK2 k
      unfold bucket at hc
      by_cases hk : k ∈ K
      · rw [if_pos hk, count_remOnce_ne item e _ he]
        exact hc
      · rw [if_neg hk]
        exact hc
  · intro e
    show upd g.items item none e = none ↔ upd g.itemCells item none e = none
    by_cases he : e = item
    · subst he
      rw [upd_same, upd_same]
      simp
    · rw [upd_ne _ _ _ _ he, upd_ne _ _ _ _ he]
      exact h.idx_agree e

  · intro k l hck
    have hck2 : removeAll g.cells item K k = some l := hck
    rw [removeAll_apply] at hck2
    by_cases hk : k ∈ K
    · rw [if_pos hk] at hck2
      unfold remOnce at hck2
      by_cases hf : ((g.cells k).getD []).filter (fun it => it ≠ item) = []
      · rw [if_pos hf] at hck2
        exact absurd hck2 (by simp)
      · rw [if_neg hf, Option.some.injEq] at hck2
        rw [← hck2]
        exact hf
    · rw [if_neg hk] at hck2
      exact h.buckets_ne_nil k l hck2
  · intro k l e hck hmem
    have hck2 : removeAll g.cells item K k = some l := hck
    show upd g.itemCells item none e ≠ none
    rw [removeAll_apply] at hck2
    by_cases hk : k ∈ K
    · rw [if_pos hk] at hck2
      unfold remOnce at hck2
      by_cases hf : ((g.cells k).getD []).filter (fun it => it ≠ item) = []
      · rw [if_pos hf] at hck2
        exact absurd hck2 (by simp)
      · rw [if_neg hf, Option.some.injEq] at hck2
        rw [← hck2] at hmem
        have hne : e ≠ item := by
          have hp := (List.mem_filter.1 hmem).2
          simpa using hp
        have hmem0 : e ∈ (g.cells k).getD [] := (List.mem_filter.1 hmem).1
        rw [upd_ne _ _ _ _ hne]
        rcases ho : g.cells k with _ | l0
        · rw [ho] at hmem0
          exact absurd hmem0 (by simp)
        · rw [ho] at hmem0
          simp only [Option.getD_some] at hmem0
          exact h.mem_idx k l0 e ho hmem0
    · rw [if_neg hk] at hck2
      by_cases he : e = item
      · subst he
        exfalso
        have hcnt := h.count_eq e K hic k
        have hKk : K.count k = 0 := List.count_eq_zero.2 hk
        rw [hKk] at hcnt
        unfold bucket at hcnt
        rw [hck2] at hcnt
        simp only [Option.getD_some] at hcnt
        exact (List.count_eq_zero.1 hcnt) hmem
      · rw [upd_ne _ _ _ _ he]
        exact h.mem_idx k l e hck2 hmem
  · intro e s' hs
    have hs2 : upd g.items item none e = some s' := hs
    show s' ≤ g.gen
    by_cases he : e = item
    · subst he
      rw [upd_same] at hs2
      exact absurd hs2 (by simp)
    · rw [upd_ne _ _ _ _ he] at hs2
      exact h.gen_bound e s' hs2

theorem wf_remove (g : Grid T) (item : T) (h : WF g) : WF (Remove g item) := by
  rcases hin : g.items item with _ | s
  · rw [remove_absent g item hin]
    exact h
  · have hin2 : g.items item ≠ none := by simp [hin]
    rcases hic : g.itemCells item with _ | K
    · exact absurd ((h.idx_agree item).2 hic) hin2
    · rw [remove_present g item hin2, hic]
      exact wf_remove_aux g item K h hic

/-- Invariant threaded through `Query`'s fold state (stamp map × result
buffer): each stamp is either untouched or freshly set to the new generation
for an entry found in some bucket; the buffer holds exactly the entries
stamped with the new generation; and the buffer has no duplicates. -/
def QInv (g : Grid T) (gen' : ℕ) (st : (T → Option ℕ) × List T) : Prop :=
  (∀ x, st.1 x = g.items x ∨
    (st.1 x = some gen' ∧ ∃ k l, g.cells k = some l ∧ x ∈ l)) ∧
  (∀ x, x ∈ st.2 ↔ st.1 x = some gen') ∧
  st.2.Nodup

theorem qstep_inv (g : Grid T) (gen' : ℕ) (st : (T → Option ℕ) × List T) (it : T)
    (hit : ∃ k l, g.cells k = some l ∧ it ∈ l) (h : QInv g gen' st) :
    QInv g gen' (queryStep gen' st it) := by
  obtain ⟨h1, h2, h3⟩ := h
  unfold queryStep
  by_cases hc : (st.1 it).getD 0 ≠ gen'
  · rw [if_pos hc]
    have hnot : it ∉ st.2 := by
      intro hm
      have hs := (h2 it).1 hm
      rw [hs] at hc
      simp at hc
    refine ⟨?_, ?_, ?_⟩
    · intro x
      by_cases hx : x = it
      · subst hx
        exact Or.inr ⟨upd_same _ _ _, hit⟩
      · show upd st.1 it (some gen') x = g.items x ∨
          (upd st.1 it (some gen') x = some gen' ∧ ∃ k l, g.cells k = some l ∧ x ∈ l)
        rw [upd_ne _ _ _ _ hx]
        exact h1 x
    · intro x
      show x ∈ st.2 ++ [it] ↔ upd st.1 it (some gen') x = some gen'
      by_cases hx : x = it
      · subst hx
        rw [upd_same]
        simp
      · rw [upd_ne _ _ _ _ hx, List.mem_append]
        simp only [List.mem_singleton]
        constructor
        · rintro (hm | hm)
          · exact (h2 x).1 hm
          · exact absurd hm hx
        · intro hs
          exact Or.inl ((h2 x).2 hs)
    · show (st.2 ++ [it]).Nodup
      rw [List.nodup_append]
      exact ⟨h3, List.nodup_singleton it, fun a ha hb => by
        rw [List.mem_singleton] at hb
        subst hb
        exact hnot ha⟩
  · rw [if_neg hc]
    exact ⟨h1, h2, h3⟩

theorem qfoldl_inv (g : Grid T) (gen' : ℕ) (l : List T)
    (hl : ∀ x ∈ l, ∃ k l', g.cells k = some l' ∧ x ∈ l')
    (st : (T → Option ℕ) × List T) (h : QInv g gen' st) :
    QInv g gen' (l.foldl (queryStep gen') st) := by
  induction l generalizing st with
  | nil => exact h
  | cons a rest ih =>
    rw [List.foldl_cons]
    exact ih (fun x hx => hl x (List.mem_cons_of_mem a hx)) _
      (qstep_inv g gen' st a (hl a (List.mem_cons_self a rest)) h)

theorem qcell_inv (g : Grid T) (gen' : ℕ) (st : (T → Option ℕ) × List T) (k : ℕ)
    (h : QInv g gen' st) : QInv g gen' (queryCell g gen' st k) := by
  unfold queryCell
  rcases hck : g.cells k with _ | l
  · exact h
  · exact qfoldl_inv g gen' l (fun x hx => ⟨k, l, hck, hx⟩) st h

theorem qfold_inv (g : Grid T) (gen' : ℕ) (ks : List ℕ)
    (st : (T → Option ℕ) × List T) (h : QInv g gen' st) :
    QInv g gen' (ks.foldl (queryCell g gen') st) := by
  induction ks generalizing st with
  | nil => exact h
  | cons k rest ih =>
    rw [List.foldl_cons]
    exact ih _ (qcell_inv g gen' st k h)

theorem qinit_inv (g : Grid T) (h : WF g) : QInv g (g.gen + 1) (g.items, []) := by
  refine ⟨fun x => Or.inl rfl, fun x => ?_, List.nodup_nil⟩
  show x ∈ ([] : List T) ↔ g.items x = some (g.gen + 1)
  simp only [List.not_mem_nil, false_iff]
  intro hs
  have := h.gen_bound x (g.gen + 1) hs
  omega

/-- The fold state computed by `Query`. -/
def queryRes (g : Grid T) (r : Rect) : (T → Option ℕ) × List T :=
  ((coveredCells g.cellWidth g.cellHeight r).map
    (fun p => EncodeGridKey p.1 p.2)).foldl (queryCell g (g.gen + 1)) (g.items, [])

theorem Query_eq (g : Grid T) (r : Rect) :
    Query g r = { g with
      gen := g.gen + 1
      items := (queryRes g r).1
      qBuf := (queryRes g r).2 } := rfl

theorem query_qinv (g : Grid T) (r : Rect) (h : WF g) :
    QInv g (g.gen + 1) (queryRes g r) :=
  qfold_inv g (g.gen + 1) _ _ (qinit_inv g h)

theorem wf_query (g : Grid T) (r : Rect) (h : WF g) : WF (Query g r) := by
  rw [Query_eq]
  obtain ⟨q1, _, _⟩ := query_qinv g r h
  constructor
  · intro e K hK k
    exact h.count_eq e K hK k
  · intro e
    show (queryRes g r).1 e = none ↔ g.itemCells e = none
    rcases q1 e with hq | ⟨hq, k, l, hck, hmem⟩
    · rw [hq]
      exact h.idx_agree e
    · rw [hq]
      have hic := h.mem_idx k l e hck hmem
      simp only [reduceCtorEq, false_iff]
      exact hic
  · intro k l hck
    exact h.buckets_ne_nil k l hck
  · intro k l e hck hmem
    exact h.mem_idx k l e hck hmem
  · intro e s' hs
    show s' ≤ g.gen + 1
    have hs2 : (queryRes g r).1 e = some s' := hs
    rcases q1 e with hq | ⟨hq, _⟩
    · rw [hq] at hs2
      have := h.gen_bound e s' hs2
      omega
    · rw [hq, Option.some.injEq] at hs2
      omega

theorem wf_clear (g : Grid T) : WF (Clear g) := by
  constructor <;> intro e <;> simp [Clear, bucket]

theorem wf_resize (g : Grid T) (cellWidth cellHeight : ℚ) (h : WF g) :
    WF (Resize g cellWidth cellHeight) := by
  unfold Resize
  by_cases hc : g.cellWidth = cellWidth ∧ g.cellHeight = cellHeight
  · rw [if_pos hc]
    exact h
  · rw [if_neg hc]
    have hwf := wf_clear g
    constructor
    · exact hwf.count_eq
    · exact hwf.idx_agree
    · exact hwf.buckets_ne_nil
    · exact hwf.mem_idx
    · exact hwf.gen_bound

/-- The grid states reachable from a constructor call by the public
operations of `src/hash/grid.go`. -/
inductive Reachable : Grid T → Prop where
  | new (cellWidth cellHeight : ℚ) : Reachable (NewGrid cellWidth cellHeight)
  | insert (g : Grid T) (item : T) (r : Rect) (p : GridItemPadding)
      (fn : Option (ℚ → ℚ → ℚ → ℚ → Bool)) :
      Reachable g → Reachable (insert g item r p fn).2
  | remove (g : Grid T) (item : T) : Reachable g → Reachable (Remove g item)
  | query (g : Grid T) (r : Rect) : Reachable g → Reachable (Query g r)
  | clear (g : Grid T) : Reachable g → Reachable (Clear g)
  | resize (g : Grid T) (cellWidth cellHeight : ℚ) :
      Reachable g → Reachable (Resize g cellWidth cellHeight)

/-- Every reachable `hash.Grid` state is well-formed. -/
theorem wf_reachable (g : Grid T) (h : Reachable g) : WF g := by
  induction h with
  | new cw ch => exact wf_new cw ch
  | insert g item r p fn _ ih => exact wf_insert g item r p fn ih
  | remove g item _ ih => exact wf_remove g item ih
  | query g r _ ih => exact wf_query g r ih
  | clear g _ ih => exact wf_clear g
  | resize g cw ch _ ih => exact wf_resize g cw ch ih

end Hash

namespace Hashgrid

/-- `EncodeGridKey` from `src/hashgrid/grid.go` (`GridKey` is a `uint64`):
identical packing to the `hash` package codec. -/
def EncodeGridKey (x y : ℤ) : ℕ :=
  (((x + 2147483648) % 4294967296) * 4294967296 + (y + 2147483648) % 4294967296).toNat

/-- `DecodeGridKey` from `src/hashgrid/grid.go`:
`x = int32(int64(uint32(key>>32)) - offset)`, `y = int32(int64(uint32(key)) - offset)`.
Unlike the `hash` package decoder, the subtraction result is known in range, but the
final `int32` conversion is still a wrapping conversion and is modelled as such. -/
def DecodeGridKey (key : ℕ) : ℤ × ℤ :=
  let upper := (key : ℤ) / 4294967296 % 4294967296
  let lower := (key : ℤ) % 4294967296
  (Hash.toInt32 (upper - 2147483648), Hash.toInt32 (lower - 2147483648))

theorem roundtripKeyCodecHG (x y : ℤ) (hx1 : -2147483648 ≤ x) (hx2 : x < 2147483648)
    (hy1 : -2147483648 ≤ y) (hy2 : y < 2147483648) :
    DecodeGridKey (EncodeGridKey x y) = (x, y) := by
  have hnn : (0:ℤ) ≤ ((x + 2147483648) % 4294967296) * 4294967296 +
      (y + 2147483648) % 4294967296 := by
    have h1 : (0:ℤ) ≤ (x + 2147483648) % 4294967296 :=
      Int.emod_nonneg _ (by norm_num)
    have h2 : (0:ℤ) ≤ (y + 2147483648) % 4294967296 :=
      Int.emod_nonneg _ (by norm_num)
    nlinarith
  unfold DecodeGridKey EncodeGridKey Hash.toInt32
  rw [Int.toNat_of_nonneg hnn]
  simp only [Prod.mk.injEq]
  constructor <;> omega

/-- A concrete grid entry for the `hashgrid` package: the `GridEntry`
interface requires a comparable identity plus `Min()`/`Max()` bounding-box
accessors; this structure carries an identity tag and the box. -/
structure Entry where
  id : ℕ
  minX : ℚ
  minY : ℚ
  maxX : ℚ
  maxY : ℚ
deriving DecidableEq

/-- Go's truncating float-to-int conversion `int32(q)` for in-range values:
rounding toward zero. -/
def trunc (q : ℚ) : ℤ := if 0 ≤ q then ⌊q⌋ else ⌈q⌉

/-- The inclusive integer interval `[lo, hi]`, modelling the Go loop
`for i := lo; i <= hi; i++`. -/
def intRangeIncl (lo hi : ℤ) : List ℤ := intRange lo (hi + 1)

/-- The state of `hashgrid.Grid[T]` from `src/hashgrid/grid.go`: four per-side
padding amounts (0 or 1, extracted from the `GridPadding` bit mask), the cell
size, and the bucket store. This variant has no reverse index. -/
structure Grid where
  left : ℕ
  right : ℕ
  top : ℕ
  bottom : ℕ
  cellSize : ℚ
  cells : ℕ → Option (List Entry)

/-- The grid value `NewWithPadding` builds once its cell-size check has
passed. The bit extractions `uint8(padding & LeftPadding)`,
`uint8((padding & RightPadding) >> 1)`, ... are written arithmetically. -/
def mkGrid (cellSize : ℚ) (padding : ℕ) : Grid :=
  { left := padding % 2
    right := padding / 2 % 2
    top := padding / 4 % 2
    bottom := padding / 8 % 2
    cellSize := cellSize
    cells := fun _ => none }

/-- `NewWithPadding` from `src/hashgrid/grid.go`: panics (modelled as `none`)
when `cellSize <= 0`, otherwise returns the grid. -/
def NewWithPadding (cellSize : ℚ) (padding : ℕ) : Option Grid :=
  if cellSize ≤ 0 then none else some (mkGrid cellSize padding)

/-- `New` from `src/hashgrid/grid.go`: `NewWithPadding` with `NoPadding`. -/
def New (cellSize : ℚ) : Option Grid := NewWithPadding cellSize 0

/-- `GetKeys` from `src/hashgrid/grid.go`: truncated start coordinates minus
the left/top padding, truncated end coordinates *minus one* plus the
right/bottom padding, iterated inclusively (outer `x`, inner `y`). -/
def GetKeys (g : Grid) (e : Entry) : List ℕ :=
  let startX := trunc (e.minX / g.cellSize) - (g.left : ℤ)
  let startY := trunc (e.minY / g.cellSize) - (g.top : ℤ)
  let endX := (trunc (e.maxX / g.cellSize) - 1) + (g.right : ℤ)
  let endY := (trunc (e.maxY / g.cellSize) - 1) + (g.bottom : ℤ)
  (intRangeIncl startX endX).flatMap
    (fun x => (intRangeIncl startY endY).map (fun y => EncodeGridKey x y))

/-- One key step of `Insert`'s loop: `entries := g.cells[key]`; append the
entry unless the bucket already contains it (the duplicate check). -/
def insStep (e : Entry) (cs : ℕ → Option (List Entry)) (k : ℕ) :
    ℕ → Option (List Entry) :=
  let entries := (cs k).getD []
  if e ∈ entries then cs else upd cs k (some (entries ++ [e]))

/-- `Insert` from `src/hashgrid/grid.go`: append the entry to the bucket of
every key `GetKeys` computes, skipping buckets that already contain it. It
returns nothing. -/
def Insert (g : Grid) (e : Entry) : Grid :=
  { g with cells := (GetKeys g e).foldl (insStep e) g.cells }

/-- `Remove` from `src/hashgrid/grid.go`: recompute `GetKeys` from the entry's
*current* box and delete the first occurrence of the entry from each of those
buckets, deleting buckets that become empty. -/
def Remove (g : Grid) (e : Entry) : Grid :=
  { g with
    cells := (GetKeys g e).foldl (fun cs k =>
      let entries := (cs k).getD []
      if e ∈ entries then
        let l' := entries.eraseP (fun x => x == e)
        if l' = [] then upd cs k none else upd cs k (some l')
      else cs) g.cells }

/-- The `(x, y)` cell pairs iterated by `Query` from `src/hashgrid/grid.go`:
truncated corners, inclusive on both ends (outer `x`, inner `y`) — unlike
`hash.cellRange` this neither floors negative values down nor excludes a max
edge lying exactly on a cell boundary. -/
def queryCellList (cellSize : ℚ) (minX minY maxX maxY : ℚ) : List (ℤ × ℤ) :=
  let startX := trunc (minX / cellSize)
  let startY := trunc (minY / cellSize)
  let endX := trunc (maxX / cellSize)
  let endY := trunc (maxY / cellSize)
  (intRangeIncl startX endX).flatMap
    (fun x => (intRangeIncl startY endY).map (fun y => (x, y)))

/-- `Query` from `src/hashgrid/grid.go`: scan the buckets of every cell of
`queryCellList`; an entry is emitted when it has not been seen yet and its
AABB intersects the query rectangle (the seen-set is only ever extended
together with the result list, so the result list itself serves as the
seen-set). -/
def Query (g : Grid) (minX minY maxX maxY : ℚ) : List Entry :=
  (queryCellList g.cellSize minX minY maxX maxY).foldl (fun results p =>
    ((g.cells (EncodeGridKey p.1 p.2)).getD []).foldl (fun results e =>
      if e ∈ results then results
      else if e.maxX ≥ minX ∧ e.minX ≤ maxX ∧ e.maxY ≥ minY ∧ e.minY ≤ maxY then
        results ++ [e]
      else results) results) []

theorem insStep_mem (e : Entry) (cs : ℕ → Option (List Entry)) (k' k : ℕ)
    (h : e ∈ (cs k).getD []) : e ∈ ((insStep e cs k') k).getD [] := by
  unfold insStep
  by_cases hm : e ∈ (cs k').getD []
  · rw [if_pos hm]
    exact h
  · rw [if_neg hm]
    by_cases hk : k = k'
    · subst hk
      exact absurd h hm
    · rw [upd_ne _ _ _ _ hk]
      exact h

theorem insStep_self (e : Entry) (cs : ℕ → Option (List Entry)) (k : ℕ) :
    e ∈ ((insStep e cs k) k).getD [] := by
  unfold insStep
  by_cases hm : e ∈ (cs k).getD []
  · rw [if_pos hm]
    exact hm
  · rw [if_neg hm, upd_same]
    simp

theorem insFold_mono (e : Entry) (ks : List ℕ) (cs : ℕ → Option (List Entry))
    (k : ℕ) (h : e ∈ (cs k).getD []) :
    e ∈ ((ks.foldl (insStep e) cs) k).getD [] := by
  induction ks generalizing cs with
  | nil => exact h
  | cons k0 rest ih =>
    rw [List.foldl_cons]
    exact ih _ (insStep_mem e cs k0 k h)

theorem insFold_mem (e : Entry) (ks : List ℕ) (cs : ℕ → Option (List Entry))
    (k : ℕ) (hk : k ∈ ks) : e ∈ ((ks.foldl (insStep e) cs) k).getD [] := by
  induction ks generalizing cs with
  | nil => cases hk
  | cons k0 rest ih =>
    rw [List.foldl_cons]
    rcases List.mem_cons.1 hk with heq | hk'
    · subst heq
      exact insFold_mono e rest _ k (insStep_self e cs k)
    · exact ih _ hk'

theorem insFold_noop (e : Entry) (ks : List ℕ) (cs : ℕ → Option (List Entry))
    (h : ∀ k ∈ ks, e ∈ (cs k).getD []) : ks.foldl (insStep e) cs = cs := by
  induction ks with
  | nil => rfl
  | cons k0 rest ih =>
    rw [List.foldl_cons]
    have hstep : insStep e cs k0 = cs := by
      unfold insStep
      rw [if_pos (h k0 (List.mem_cons_self k0 rest))]
    rw [hstep]
    exact ih (fun k hk => h k (List.mem_cons_of_mem k0 hk))

/-- Re-inserting an entry already stored under its current keys leaves the
hashgrid variant's state unchanged: the per-bucket duplicate check skips every
key. -/
theorem Insert_idem (g : Grid) (e : Entry) : Insert (Insert g e) e = Insert g e := by
  show ({ Insert g e with
    cells := (GetKeys (Insert g e) e).foldl (insStep e) (Insert g e).cells } : Grid) =
    Insert g e
  have hkeys : GetKeys (Insert g e) e = GetKeys g e := rfl
  rw [hkeys]
  have hmem : ∀ k ∈ GetKeys g e, e ∈ ((Insert g e).cells k).getD [] :=
    fun k hk => insFold_mem e (GetKeys g e) g.cells k hk
  rw [insFold_noop e _ _ hmem]

end Hashgrid

namespace Part001

/-- `NewGridKey` from `src/unnamed/part_001`: `uint32(x)` packed into the
high and `uint32(y)` into the low 32 bits of a `uint64`, with no bias
offset (`x`, `y` are `int`; the conversions wrap). -/
def NewGridKey (x y : ℤ) : ℕ :=
  ((x % 4294967296) * 4294967296 + y % 4294967296).toNat

/-- The state of `Grid[T]` from `src/unnamed/part_001`: cell size and bucket
store only — this variant keeps no reverse index.

The `GridEntry` interface is instantiated here with a pointer type: the
bucket element (and the identity the `==` comparisons use) is the pointer,
modelled as a tag `ℕ`, while `Min()`/`Max()` read the box from the current
pointed-to state, supplied to each operation as a map `boxes : ℕ → Rect`.
This is the configuration in which an entry's bounding box can change
between insertion and removal while its identity stays fixed. -/
structure Grid where
  cellSize : ℚ
  cells : ℕ → Option (List ℕ)

/-- `GetKeys` from `src/unnamed/part_001`: truncating integer division of
all four corners by the cell size, iterated inclusively (outer `x`, inner
`y`), reading the entry's *current* box. -/
def GetKeys (cellSize : ℚ) (boxes : ℕ → Rect) (e : ℕ) : List ℕ :=
  let startX := Hashgrid.trunc ((boxes e).minX / cellSize)
  let startY := Hashgrid.trunc ((boxes e).minY / cellSize)
  let endX := Hashgrid.trunc ((boxes e).maxX / cellSize)
  let endY := Hashgrid.trunc ((boxes e).maxY / cellSize)
  (Hashgrid.intRangeIncl startX endX).flatMap
    (fun x => (Hashgrid.intRangeIncl startY endY).map (fun y => NewGridKey x y))

/-- `Insert` from `src/unnamed/part_001`: append the entry to each bucket of
`GetKeys` unless the bucket already contains it (the `goto nextKey`
duplicate check; the `make([]T, 0)` materialisation of absent buckets is
unobservable because an append follows immediately). -/
def Insert (g : Grid) (boxes : ℕ → Rect) (e : ℕ) : Grid :=
  { g with
    cells := (GetKeys g.cellSize boxes e).foldl (fun cs k =>
      let l := (cs k).getD []
      if e ∈ l then cs else upd cs k (some (l ++ [e]))) g.cells }

/-- `Remove` from `src/unnamed/part_001`: recompute `GetKeys` from the
entry's *current* box (this variant has no recorded key list), delete the
first identity match from each of those buckets, and delete any of those
buckets left empty. -/
def Remove (g : Grid) (boxes : ℕ → Rect) (e : ℕ) : Grid :=
  { g with
    cells := (GetKeys g.cellSize boxes e).foldl (fun cs k =>
      let l := (cs k).getD []
      let l' := l.eraseP (fun x => x == e)
      if l' = [] then upd cs k none else upd cs k (some l')) g.cells }

end Part001

/-! ### Concrete states used by the claim witnesses -/

/-- The hash-package grid (cell size 64×64) after plainly inserting entry `0`
with box `[0, 0, 32, 32]`. -/
def gEx : Hash.Grid ℕ :=
  (Hash.insert (Hash.NewGrid 64 64) 0 ⟨0, 0, 32, 32⟩ .noGridPadding none).2

/-- The hash-package grid (cell size 64×64) after plainly inserting entry `7`
with box `[0, 0, 200, 200]` (a 4×4 block of cells). -/
def gB : Hash.Grid ℕ :=
  (Hash.insert (Hash.NewGrid 64 64) 7 ⟨0, 0, 200, 200⟩ .noGridPadding none).2

/-- The hash-package grid after inserting entry `0` with a per-cell predicate
that rejects every cell: the entry occupies zero cells. -/
def gReject : Hash.Grid ℕ :=
  (Hash.InsertFunc (Hash.NewGrid 64 64) 0 ⟨0, 0, 32, 32⟩ .noGridPadding
    (fun _ _ _ _ => false)).2

/-- The `hashgrid` entry `A` of the spec's Example 1: box `[0, 0, 32, 32]`. -/
def entryA : Hashgrid.Entry := ⟨0, 0, 0, 32, 32⟩

/-! ### Claims -/

/-- Claim C1 (code bug in `src/hashgrid/grid.go`): its `GetKeys` computes
`endX = int32(maxX/cellSize) - 1`, so entry `A` with box `[0, 0, 32, 32]` at
cell size 64 occupies zero cells, `Insert` stores it nowhere, and
`Query([0,0,50,50])` returns `[]` — contradicting the claim (and `Insert`'s
own doc comment). The `hash` package variant cited by the same claim does
return `[A]` there, `[]` far away, and a 4×4-cell entry exactly once. -/
theorem C1_query_soundness_eval :
    Hashgrid.GetKeys (Hashgrid.mkGrid 64 0) entryA = [] ∧
    Hashgrid.Query (Hashgrid.Insert (Hashgrid.mkGrid 64 0) entryA) 0 0 50 50 = [] ∧
    Hashgrid.New 64 = some (Hashgrid.mkGrid 64 0) ∧
    (Hash.Query gEx ⟨0, 0, 50, 50⟩).qBuf = [0] ∧
    (Hash.Query (Hash.Query gEx ⟨0, 0, 50, 50⟩) ⟨1000, 1000, 1100, 1100⟩).qBuf = [] ∧
    (Hash.Query gB ⟨90, 90, 110, 110⟩).qBuf = [7] :=
  ⟨by decide, by decide, rfl, by decide, by decide, by decide⟩

/-- Claim C2 counterexample: after inserting an entry whose per-cell predicate
rejects every cell, the entry sits in the reverse index with an empty key
list while the bucket store is still the fresh grid's empty map — so "`e` is
in the reverse index iff `e` appears in at least one bucket" is violated in
exactly the state the claim says it covers. -/
theorem C2_counterexample :
    gReject.itemCells 0 = some [] ∧ gReject.items 0 = some 0 ∧
    gReject.cells = (Hash.NewGrid (T := ℕ) 64 64).cells :=
  ⟨rfl, rfl, rfl⟩

/-- Claim C2 (amended): after every public operation the invariants hold with
entry existence weakened to: every bucket member is in the reverse index, and
an entry in the reverse index either has an empty recorded key list or
appears in at least one bucket (an entry all of whose cells were rejected is
recorded with an empty key list and appears in no bucket). -/
theorem C2_invariants_amended (T : Type) [DecidableEq T] (g : Hash.Grid T)
    (hr : Hash.Reachable g) :
    (∀ e K, g.itemCells e = some K → ∀ k, k ∈ K →
      ((g.cells k).getD []).count e = K.count k) ∧
    (∀ k l, g.cells k = some l → l ≠ []) ∧
    (∀ k l e, g.cells k = some l → e ∈ l → g.itemCells e ≠ none) ∧
    (∀ e, g.itemCells e ≠ none →
      g.itemCells e = some [] ∨ ∃ k l, g.cells k = some l ∧ e ∈ l) := by
  have h := Hash.wf_reachable g hr
  refine ⟨fun e K hK k _ => h.count_eq e K hK k, h.buckets_ne_nil, h.mem_idx, ?_⟩
  intro e hne
  rcases hic : g.itemCells e with _ | K
  · exact absurd hic hne
  rcases K with _ | ⟨k0, K'⟩
  · exact Or.inl rfl
  · right
    have hc := h.count_eq e (k0 :: K') hic k0
    have hK0 : 0 < (k0 :: K').count k0 :=
      List.count_pos_iff.2 (List.mem_cons_self k0 K')
    have hpos : 0 < (Hash.bucket g k0).count e := by omega
    have hmem : e ∈ Hash.bucket g k0 := List.count_pos_iff.1 hpos
    unfold Hash.bucket at hmem
    rcases ho : g.cells k0 with _ | l
    · rw [ho] at hmem
      exact absurd hmem (by simp)
    · rw [ho] at hmem
      simp only [Option.getD_some] at hmem
      exact ⟨k0, l, ho, hmem⟩

theorem C2_witness :
    gReject.itemCells 0 = some [] ∨ ∃ k l, gReject.cells k = some l ∧ 0 ∈ l :=
  (C2_invariants_amended ℕ gReject
    (Hash.Reachable.insert _ 0 ⟨0, 0, 32, 32⟩ .noGridPadding
      (some (fun _ _ _ _ => false)) (Hash.Reachable.new 64 64))).2.2.2 0 (by decide)

/-- Claim C3: for a present entry, `Remove` makes `Contains` false, leaves the
entry in zero buckets, and deletes from the occupied-key set every bucket
whose only content was the entry. -/
theorem C3_remove_complete (T : Type) [DecidableEq T] (g : Hash.Grid T) (e : T)
    (hr : Hash.Reachable g) (hin : g.items e ≠ none) :
    Hash.Contains (Hash.Remove g e) e = false ∧
    (∀ k, (((Hash.Remove g e).cells k).getD []).count e = 0) ∧
    (∀ k l, g.cells k = some l → (∀ x ∈ l, x = e) →
      (Hash.Remove g e).cells k = none) := by
  have h := Hash.wf_reachable g hr
  rcases hic : g.itemCells e with _ | K
  · exact absurd ((h.idx_agree e).2 hic) hin
  rw [Hash.remove_present g e hin, hic]
  refine ⟨?_, ?_, ?_⟩
  · show (upd g.items e none e).isSome = false
    rw [upd_same]
    rfl
  · intro k
    show ((Hash.removeAll g.cells e K k).getD []).count e = 0
    rw [Hash.removeAll_apply]
    by_cases hk : k ∈ K
    · rw [if_pos hk]
      exact Hash.count_remOnce_self e _
    · rw [if_neg hk]
      have hc := h.count_eq e K hic k
      have hz : K.count k = 0 := List.count_eq_zero.2 hk
      unfold Hash.bucket at hc
      omega
  · intro k l hck hall
    show Hash.removeAll g.cells e K k = none
    have hnil : l ≠ [] := h.buckets_ne_nil k l hck
    have hmem : e ∈ l := by
      rcases l with _ | ⟨a, l'⟩
      · exact absurd rfl hnil
      · have ha := hall a (List.mem_cons_self a l')
        rw [← ha]
        exact List.mem_cons_self a l'
    have hcnt := h.count_eq e K hic k
    unfold Hash.bucket at hcnt
    rw [hck] at hcnt
    simp only [Option.getD_some] at hcnt
    have hk : k ∈ K := by
      have h1 : 0 < l.count e := List.count_pos_iff.2 hmem
      have h2 : 0 < K.count k := by omega
      exact List.count_pos_iff.1 h2
    rw [Hash.removeAll_apply, if_pos hk]
    unfold Hash.remOnce
    rw [hck]
    simp only [Option.getD_some]
    have hfilter : l.filter (fun it => it ≠ e) = [] := by
      rw [List.filter_eq_nil_iff]
      intro a ha
      simp [hall a ha]
    rw [if_pos hfilter]

theorem C3_witness :
    Hash.Contains (Hash.Remove gEx 0) 0 = false ∧
    (Hash.Remove gEx 0).cells (Hash.EncodeGridKey 0 0) = none := by
  have h := C3_remove_complete ℕ gEx 0
    (Hash.Reachable.insert _ 0 ⟨0, 0, 32, 32⟩ .noGridPadding none
      (Hash.Reachable.new 64 64))
    (by decide)
  exact ⟨h.1, h.2.2 (Hash.EncodeGridKey 0 0) [0] (by decide) (by decide)⟩

/-- Claim C4: inserting an already-present identity is a no-op reporting
`false` (the `hash` variant and `part_000`'s `InsertStrictCheck`); for the
`hashgrid` variant, which reports nothing, re-inserting the same entry value
likewise leaves the state unchanged because every bucket already contains it. -/
theorem C4_insert_idempotent (T : Type) [DecidableEq T] (g : Hash.Grid T)
    (item : T) (r : Rect) (p : Hash.GridItemPadding)
    (fn : Option (ℚ → ℚ → ℚ → ℚ → Bool)) (hg : Hashgrid.Grid)
    (e : Hashgrid.Entry) (hin : g.items item ≠ none) :
    Hash.insert g item r p fn = (false, g) ∧
    Hashgrid.Insert (Hashgrid.Insert hg e) e = Hashgrid.Insert hg e :=
  ⟨Hash.insert_present g item r p fn hin, Hashgrid.Insert_idem hg e⟩

theorem C4_witness :
    Hash.insert gEx 0 ⟨5, 5, 10, 10⟩ .gridCellPadding none = (false, gEx) ∧
    Hashgrid.Insert (Hashgrid.Insert (Hashgrid.mkGrid 64 0) entryA) entryA =
      Hashgrid.Insert (Hashgrid.mkGrid 64 0) entryA :=
  C4_insert_idempotent ℕ gEx 0 ⟨5, 5, 10, 10⟩ .gridCellPadding none
    (Hashgrid.mkGrid 64 0) entryA (by decide)

/-- Claim C5: the 64-bit cell-key codec round-trips exactly on the whole
`int32 × int32` coordinate range, in both the `hash` and `hashgrid`
packages. -/
theorem C5_codec_roundtrip_exact (x y : ℤ)
    (hx1 : -2147483648 ≤ x) (hx2 : x < 2147483648)
    (hy1 : -2147483648 ≤ y) (hy2 : y < 2147483648) :
    Hash.DecodeGridKey (Hash.EncodeGridKey x y) = (x, y) ∧
    Hashgrid.DecodeGridKey (Hashgrid.EncodeGridKey x y) = (x, y) :=
  ⟨Hash.roundtripKeyCodec x y hx1 hx2 hy1 hy2,
   Hashgrid.roundtripKeyCodecHG x y hx1 hx2 hy1 hy2⟩

theorem C5_witness :
    Hash.DecodeGridKey (Hash.EncodeGridKey 12345 (-678)) = (12345, -678) ∧
    Hashgrid.DecodeGridKey (Hashgrid.EncodeGridKey 12345 (-678)) = (12345, -678) :=
  C5_codec_roundtrip_exact 12345 (-678) (by decide) (by decide) (by decide)
    (by decide)

/-- Claim C6 counterexample: `hashgrid/grid.go`'s `Query` (cited by the
claim) iterates truncated, inclusive cell ranges, so the box `[0,0,64,32]`
at cell size 64 — right edge exactly on a cell boundary — claims cell
`cx = 1`, which the floor/ceil half-open convention the claim describes
excludes. -/
theorem C6_counterexample :
    (1, 0) ∈ Hashgrid.queryCellList 64 0 0 64 32 ∧
    (1, 0) ∉ Hash.coveredCells 64 64 ⟨0, 0, 64, 32⟩ := by
  decide

/-- Claim C6 (amended): for `hash.cellRange`/`part_000.computeCellRange` the
covered set is exactly the floor/ceil half-open product, and a box whose max
edge lies exactly on a cell boundary does not claim the next cell;
`hashgrid/grid.go`'s `Query`/`GetKeys` instead truncate toward zero and
iterate inclusively. -/
theorem C6_cell_range_amended (cw ch : ℚ) (r : Rect) (cx cy n : ℤ)
    (hw : 0 < cw) :
    ((cx, cy) ∈ Hash.coveredCells cw ch r ↔
      (⌊r.minX / cw⌋ ≤ cx ∧ cx < ⌈r.maxX / cw⌉ ∧
       ⌊r.minY / ch⌋ ≤ cy ∧ cy < ⌈r.maxY / ch⌉)) ∧
    (r.maxX = (n : ℚ) * cw → (cx, cy) ∈ Hash.coveredCells cw ch r → cx < n) := by
  have hmem : (cx, cy) ∈ Hash.coveredCells cw ch r ↔
      (⌊r.minX / cw⌋ ≤ cx ∧ cx < ⌈r.maxX / cw⌉ ∧
       ⌊r.minY / ch⌋ ≤ cy ∧ cy < ⌈r.maxY / ch⌉) := by
    unfold Hash.coveredCells Hash.rangeCells Hash.cellRange
    simp only [List.mem_flatMap, List.mem_map]
    constructor
    · rintro ⟨cy', hcy, cx', hcx, heq⟩
      rw [Prod.mk.injEq] at heq
      obtain ⟨h1, h2⟩ := heq
      subst h1
      subst h2
      rw [mem_intRange] at hcy hcx
      exact ⟨hcx.1, hcx.2, hcy.1, hcy.2⟩
    · rintro ⟨h1, h2, h3, h4⟩
      exact ⟨cy, mem_intRange.2 ⟨h3, h4⟩, cx, mem_intRange.2 ⟨h1, h2⟩, rfl⟩
  refine ⟨hmem, ?_⟩
  intro hmax hin
  rw [hmem] at hin
  have hceil : ⌈r.maxX / cw⌉ = n := by
    rw [hmax, mul_div_cancel_right₀ _ (ne_of_gt hw)]
    exact Int.ceil_intCast n
  omega

theorem C6_witness :
    ((0, 0) ∈ Hash.coveredCells 64 64 ⟨0, 0, 64, 32⟩ ↔
      (⌊(0 : ℚ) / 64⌋ ≤ 0 ∧ (0 : ℤ) < ⌈(64 : ℚ) / 64⌉ ∧
       ⌊(0 : ℚ) / 64⌋ ≤ 0 ∧ (0 : ℤ) < ⌈(32 : ℚ) / 64⌉)) ∧ (0 : ℤ) < 1 :=
  ⟨(C6_cell_range_amended 64 64 ⟨0, 0, 64, 32⟩ 0 0 1 (by decide)).1,
   (C6_cell_range_amended 64 64 ⟨0, 0, 64, 32⟩ 0 0 1 (by decide)).2 (by decide)
     (by decide)⟩

/-- The box state at insertion time for the C7 counterexample: entry `0`
occupies `[0, 0, 32, 32]` (cell `(0, 0)` at cell size 64). -/
def boxesBefore : ℕ → Rect := fun _ => ⟨0, 0, 32, 32⟩

/-- The box state at removal time for the C7 counterexample: entry `0` has
moved to `[100, 100, 110, 110]` (cell `(1, 1)` at cell size 64). -/
def boxesAfter : ℕ → Rect := fun _ => ⟨100, 100, 110, 110⟩

/-- The `part_001` grid after inserting pointer-entry `0` at
`[0, 0, 32, 32]`, moving it to `[100, 100, 110, 110]`, and removing it. -/
def gMoved : Part001.Grid :=
  Part001.Remove (Part001.Insert ⟨64, fun _ => none⟩ boxesBefore 0) boxesAfter 0

/-- Claim C7 counterexample: the `Remove` of `src/unnamed/part_001` (cited by
the claim, like `hashgrid/grid.go`'s `Remove`) keeps no recorded key list and
recomputes `GetKeys` from the entry's current box at removal time; after the
entry's box has moved from cell `(0,0)` to cell `(1,1)`, `Remove` only
touches cell `(1,1)` and the entry survives in the bucket of cell `(0,0)` —
removal is not complete when the bounding box has changed. -/
theorem C7_counterexample :
    gMoved.cells (Part001.NewGridKey 0 0) = some [0] := by
  decide

/-- Claim C7 (amended): for the `hash` package's `Remove` — the variant that
keeps a reverse index — the claim holds: it deletes a present entry from
exactly the buckets of the cell keys recorded at insertion time, comparing
elements by identity (the removal takes no geometry at all, so a changed
bounding box cannot affect it), deletes buckets it empties, and clears the
reverse-index and presence entries. The `hashgrid/grid.go` and `part_001`
`Remove`s cited by the claim instead recompute the key set from the entry's
current geometry, so for them removal after a box change is incomplete. -/
theorem C7_remove_by_identity (T : Type) [DecidableEq T] (g : Hash.Grid T)
    (e : T) (K : List ℕ) (hin : g.items e ≠ none)
    (hic : g.itemCells e = some K) :
    (∀ k, k ∉ K → (Hash.Remove g e).cells k = g.cells k) ∧
    (∀ k, k ∈ K → (Hash.Remove g e).cells k =
      (if ((g.cells k).getD []).filter (fun it => it ≠ e) = [] then none
       else some (((g.cells k).getD []).filter (fun it => it ≠ e)))) ∧
    (Hash.Remove g e).itemCells e = none ∧
    (Hash.Remove g e).items e = none := by
  rw [Hash.remove_present g e hin, hic]
  refine ⟨?_, ?_, ?_, ?_⟩
  · intro k hk
    show Hash.removeAll g.cells e K k = g.cells k
    rw [Hash.removeAll_apply, if_neg hk]
  · intro k hk
    show Hash.removeAll g.cells e K k = _
    rw [Hash.removeAll_apply, if_pos hk]
    rfl
  · show upd g.itemCells e none e = none
    exact upd_same _ _ _
  · show upd g.items e none e = none
    exact upd_same _ _ _

theorem C7_witness :
    (Hash.Remove gEx 0).cells (Hash.EncodeGridKey 0 0) = none ∧
    (Hash.Remove gEx 0).cells (Hash.EncodeGridKey 5 5) =
      gEx.cells (Hash.EncodeGridKey 5 5) := by
  have h := C7_remove_by_identity ℕ gEx 0 [Hash.EncodeGridKey 0 0] (by decide)
    (by decide)
  refine ⟨?_, h.1 (Hash.EncodeGridKey 5 5) (by decide)⟩
  rw [h.2.1 (Hash.EncodeGridKey 0 0) (by decide)]
  decide

/-- Claim C8 counterexample: `hash.NewGrid` (cited by the claim) performs no
cell-size validation — at cell sizes 0 and -1 it returns a grid rather than
failing fatally, and `hash.Resize` likewise silently adopts a non-positive
size. -/
theorem C8_counterexample :
    (Hash.NewGrid (T := ℕ) 0 0).cellWidth = 0 ∧
    (Hash.NewGrid (T := ℕ) (-1) (-1)).cellWidth = -1 ∧
    (Hash.Resize (Hash.NewGrid (T := ℕ) 64 64) 0 0).cellWidth = 0 := by
  refine ⟨rfl, rfl, ?_⟩
  decide

/-- Claim C8 (amended): the `hashgrid` constructors `New`/`NewWithPadding`
do fail fatally (panic) for every non-positive cell size and return a grid
for every positive one; the `hash` package's `NewGrid` (and `Resize`)
perform no validation and accept any cell size. -/
theorem C8_fatal_precondition_amended (c w h : ℚ) :
    (c ≤ 0 → Hashgrid.New c = none ∧ Hashgrid.NewWithPadding c 15 = none) ∧
    (0 < c → Hashgrid.New c = some (Hashgrid.mkGrid c 0)) ∧
    (Hash.NewGrid (T := ℕ) w h).cellWidth = w ∧
    (Hash.NewGrid (T := ℕ) w h).cellHeight = h := by
  refine ⟨?_, ?_, rfl, rfl⟩
  · intro hc
    unfold Hashgrid.New Hashgrid.NewWithPadding
    rw [if_pos hc, if_pos hc]
    exact ⟨rfl, rfl⟩
  · intro hc
    unfold Hashgrid.New Hashgrid.NewWithPadding
    rw [if_neg (not_le.2 hc)]

theorem C8_witness :
    Hashgrid.New 0 = none ∧ Hashgrid.New (-1) = none ∧
    Hashgrid.New 64 = some (Hashgrid.mkGrid 64 0) :=
  ⟨((C8_fatal_precondition_amended 0 1 1).1 (by decide)).1,
   ((C8_fatal_precondition_amended (-1) 1 1).1 (by decide)).1,
   (C8_fatal_precondition_amended 64 1 1).2.1 (by decide)⟩

/-- Claim C9: `Resize` with both dimensions unchanged is a literal no-op;
with a changed size it adopts the new dimensions and leaves no entry present
(`Contains` is false for everything). -/
theorem C9_resize_destructive (T : Type) [DecidableEq T] (g : Hash.Grid T)
    (w h : ℚ) :
    (g.cellWidth = w ∧ g.cellHeight = h → Hash.Resize g w h = g) ∧
    (¬(g.cellWidth = w ∧ g.cellHeight = h) →
      (Hash.Resize g w h).cellWidth = w ∧ (Hash.Resize g w h).cellHeight = h ∧
      ∀ e, Hash.Contains (Hash.Resize g w h) e = false) := by
  constructor
  · intro hc
    unfold Hash.Resize
    rw [if_pos hc]
  · intro hc
    unfold Hash.Resize
    rw [if_neg hc]
    exact ⟨rfl, rfl, fun e => rfl⟩

theorem C9_witness :
    Hash.Resize gEx 64 64 = gEx ∧
    Hash.Contains (Hash.Resize gEx 32 32) 0 = false :=
  ⟨(C9_resize_destructive ℕ gEx 64 64).1 (by decide),
   ((C9_resize_destructive ℕ gEx 32 32).2 (by decide)).2.2 0⟩

/-- Claim C10: `Query` (generation-stamp variant) leaves the bucket store,
the reverse index and the cell size unchanged; it only bumps the generation
counter, rewrites generation stamps and the reused result buffer. -/
theorem C10_query_frame (T : Type) [DecidableEq T] (g : Hash.Grid T)
    (r : Rect) :
    (Hash.Query g r).cells = g.cells ∧
    (Hash.Query g r).itemCells = g.itemCells ∧
    (Hash.Query g r).cellWidth = g.cellWidth ∧
    (Hash.Query g r).cellHeight = g.cellHeight ∧
    (Hash.Query g r).gen = g.gen + 1 :=
  ⟨rfl, rfl, rfl, rfl, rfl⟩

example : (⌊(50:ℚ)/64⌋ : ℤ) = 0 := by decide
example : (⌈(200:ℚ)/64⌉ : ℤ) = 4 := by decide
example : Hash.DecodeGridKey (Hash.EncodeGridKey 5 (-7)) = (5, -7) := by decide
